import Mathlib

/-!
Verification of the SE-VAE repository's DeepAR component and the numerical
utilities in `common.py`, against the repository's specification.

The numerical code is embedded over the real numbers: torch tensors of a
fixed shape become functions out of `Fin`-indexed types, and the pointwise
torch operations become the corresponding real-valued operations.
-/

open Real

noncomputable section

/-- Embeds `common.softplus` (threshold left at its default value 20):
`torch.where(x < threshold, torch.log(1 + torch.exp(x)), x)`, applied
pointwise. -/
def softplus (x : ℝ) : ℝ :=
  if x < 20 then Real.log (1 + Real.exp x) else x

/-- Embeds `common.inverse_softplus` (threshold left at its default value 20):
`torch.where(x < threshold, torch.log(torch.exp(x) - torch.ones_like(x)), x)`,
applied pointwise. -/
def inverse_softplus (x : ℝ) : ℝ :=
  if x < 20 then Real.log (Real.exp x - 1) else x

/-- Embeds `common.logsigma2cov`: `torch.diag_embed(softplus(logsigma)**2)`,
building a diagonal covariance matrix from an unconstrained vector. -/
def logsigma2cov {n : ℕ} (logsigma : Fin n → ℝ) : Matrix (Fin n) (Fin n) ℝ :=
  Matrix.diagonal fun i => softplus (logsigma i) ^ 2

/-- Embeds `common.cov2logsigma`:
`inverse_softplus(torch.sqrt(cov.diagonal(dim1=-2, dim2=-1)))`. -/
def cov2logsigma {n : ℕ} (cov : Matrix (Fin n) (Fin n) ℝ) : Fin n → ℝ :=
  fun i => inverse_softplus (Real.sqrt (cov i i))

/-- The mean `torch.mean(x, dim=dim)` of a sequence along its leading
dimension (the other dimensions act independently, so a single slice is
modelled). -/
def seqMean {n : ℕ} (x : Fin n → ℝ) : ℝ :=
  (∑ i, x i) / n

/-- The unbiased variance `torch.var(x, dim=dim)` (torch defaults to the
unbiased estimator, dividing by `n - 1`) of a sequence along its leading
dimension. -/
def seqVar {n : ℕ} (x : Fin n → ℝ) : ℝ :=
  (∑ i, (x i - seqMean x) ^ 2) / ((n : ℝ) - 1)

/-- The divisor used by `common.normalize_seq`:
`torch.sqrt(torch.var(x, dim=dim)).clamp_min(eps)` with `eps = 1e-12`. -/
def normalizeDenom {n : ℕ} (x : Fin n → ℝ) : ℝ :=
  max (Real.sqrt (seqVar x)) 1e-12

/-- Embeds `common.normalize_seq`:
`(x - torch.mean(x, dim=dim)) / torch.sqrt(torch.var(x, dim=dim)).clamp_min(eps)`. -/
def normalize_seq {n : ℕ} (x : Fin n → ℝ) : Fin n → ℝ :=
  fun i => (x i - seqMean x) / normalizeDenom x

/-! Embedding of `model/deepar.py`.

Torch tensors of shape `(len, batch_size, size)` become lists of functions
`Fin batchSize → Fin size → ℝ`; the LSTM hidden/cell tensors of shape
`(num_layers, batch_size, hidden_size)` become `HiddenT`.  The LSTM and the
two linear decoders are library modules (`nn.LSTM`, `nn.Linear`) that the
repository's code applies opaquely, so they are modelled as arbitrary
functions of the appropriate shapes (the LSTM in evaluation mode, i.e. with
dropout inactive, is a deterministic step function). -/

/-- A batched tensor slice of shape `(batch_size, size)`. -/
def BatchT (batchSize size : ℕ) : Type :=
  Fin batchSize → Fin size → ℝ

instance {batchSize size : ℕ} : Inhabited (BatchT batchSize size) :=
  ⟨fun _ _ => 0⟩

/-- The LSTM hidden/cell tensor of shape `(num_layers, batch_size, hidden_size)`. -/
def HiddenT (numLayers batchSize hiddenSize : ℕ) : Type :=
  Fin numLayers → Fin batchSize → Fin hiddenSize → ℝ

/-- The log-density of `torch.distributions.MultivariateNormal(μ, S)` at `x`:
`-1/2·(x-μ)ᵀ S⁻¹ (x-μ) - 1/2·log det S - n/2·log(2π)`. -/
def mvn_log_prob {n : ℕ} (μ : Fin n → ℝ) (S : Matrix (Fin n) (Fin n) ℝ)
    (x : Fin n → ℝ) : ℝ :=
  -(1 / 2) * Matrix.dotProduct (fun i => x i - μ i) (S⁻¹.mulVec fun i => x i - μ i)
    - (1 / 2) * Real.log S.det - (n : ℝ) / 2 * Real.log (2 * Real.pi)

/-- Embeds the parameters and submodules of `DeepAR.__init__`: `lstm` maps
one time step of input together with `(hidden, cell)` to the updated
`(hidden, cell)` (the per-step `output` of `nn.LSTM` is never used by the
repository's code), and the two linear decoders map one batch row of the
permuted hidden state to an observation-sized vector (`nn.Linear` acts on
each batch row independently). -/
structure DeepAR (inputSize obSize hiddenSize numLayers batchSize : ℕ) where
  lstm : BatchT batchSize inputSize →
    HiddenT numLayers batchSize hiddenSize → HiddenT numLayers batchSize hiddenSize →
    HiddenT numLayers batchSize hiddenSize × HiddenT numLayers batchSize hiddenSize
  distribution_mu : (Fin hiddenSize × Fin numLayers → ℝ) → Fin obSize → ℝ
  distribution_presigma : (Fin hiddenSize × Fin numLayers → ℝ) → Fin obSize → ℝ

/-- Embeds `hidden.permute(1, 2, 0).contiguous().view(hidden.shape[1], -1)`
at batch row `b`: the flattened row lists the hidden units of all layers,
hidden index major, layer index minor. -/
def hiddenPermute {numLayers batchSize hiddenSize : ℕ}
    (hidden : HiddenT numLayers batchSize hiddenSize) (b : Fin batchSize) :
    Fin hiddenSize × Fin numLayers → ℝ :=
  fun p => hidden p.2 b p.1

/-- The attributes a `DeepAR` object stores across method calls.  A fresh
object has no `observations_seq` attribute (reading it raises
`AttributeError`), hence the `Option`; `forward_posterior` sets it and
`forward_prediction` leaves it untouched.  `state_mu` and `state_logsigma`
are the stacked per-step decoder outputs of the most recent forward call
(they default to `[]` on a fresh object; any read before a forward call is
already an error through `observations_seq`).  `external_input_seq` is also
stored by the code but read by no method, so it is not modelled. -/
structure DeepARState (obSize hiddenSize numLayers batchSize : ℕ) where
  observations_seq : Option (List (BatchT batchSize obSize))
  state_mu : List (BatchT batchSize obSize)
  state_logsigma : List (BatchT batchSize obSize)
  memory_state : Option (HiddenT numLayers batchSize hiddenSize ×
    HiddenT numLayers batchSize hiddenSize)

/-- The state of a freshly constructed `DeepAR` object. -/
def DeepARState.mk0 (obSize hiddenSize numLayers batchSize : ℕ) :
    DeepARState obSize hiddenSize numLayers batchSize :=
  ⟨none, [], [], none⟩

/-- Both forward methods replace `memory_state=None` by zero hidden and cell
tensors (`torch.zeros(num_layers, batch_size, hidden_size)`). -/
def resolveMemory {hiddenSize numLayers batchSize : ℕ}
    (memory_state : Option (HiddenT numLayers batchSize hiddenSize ×
      HiddenT numLayers batchSize hiddenSize)) :
    HiddenT numLayers batchSize hiddenSize × HiddenT numLayers batchSize hiddenSize :=
  match memory_state with
  | none => (fun _ _ _ => 0, fun _ _ _ => 0)
  | some m => m

/-- The `for t in range(l)` loop of `DeepAR.forward_posterior`: steps the
LSTM on each input in turn, decodes a mean and a pre-sigma from the permuted
hidden state at every step, and returns the collected `state_mu`,
`state_logsigma` and the final `(hidden, cell)`. -/
def DeepAR.posteriorLoop {inputSize obSize hiddenSize numLayers batchSize : ℕ}
    (m : DeepAR inputSize obSize hiddenSize numLayers batchSize) :
    List (BatchT batchSize inputSize) →
    HiddenT numLayers batchSize hiddenSize × HiddenT numLayers batchSize hiddenSize →
    List (BatchT batchSize obSize) × List (BatchT batchSize obSize) ×
      (HiddenT numLayers batchSize hiddenSize × HiddenT numLayers batchSize hiddenSize)
  | [], hc => ([], [], hc)
  | xt :: rest, hc =>
    let hc1 := m.lstm xt hc.1 hc.2
    let mu := fun b => m.distribution_mu (hiddenPermute hc1.1 b)
    let sigma := fun b => m.distribution_presigma (hiddenPermute hc1.1 b)
    let r := m.posteriorLoop rest hc1
    (mu :: r.1, sigma :: r.2.1, r.2.2)

/-- The `for t in range(l)` loop of `DeepAR.forward_prediction` — the source
duplicates the loop body of `forward_posterior` verbatim, so this definition
mirrors that duplicated loop. -/
def DeepAR.predictionLoop {inputSize obSize hiddenSize numLayers batchSize : ℕ}
    (m : DeepAR inputSize obSize hiddenSize numLayers batchSize) :
    List (BatchT batchSize inputSize) →
    HiddenT numLayers batchSize hiddenSize × HiddenT numLayers batchSize hiddenSize →
    List (BatchT batchSize obSize) × List (BatchT batchSize obSize) ×
      (HiddenT numLayers batchSize hiddenSize × HiddenT numLayers batchSize hiddenSize)
  | [], hc => ([], [], hc)
  | xt :: rest, hc =>
    let hc1 := m.lstm xt hc.1 hc.2
    let mu := fun b => m.distribution_mu (hiddenPermute hc1.1 b)
    let sigma := fun b => m.distribution_presigma (hiddenPermute hc1.1 b)
    let r := m.predictionLoop rest hc1
    (mu :: r.1, sigma :: r.2.1, r.2.2)

/-- Embeds `DeepAR.forward_posterior`: resolves `memory_state=None` to zero
tensors, runs the recurrence over the input sequence, stores
`observations_seq`, `state_mu`, `state_logsigma` and the new memory on the
object, and returns `(state_mu, state_logsigma, memory_state)` together with
the updated object state. -/
def DeepAR.forward_posterior {inputSize obSize hiddenSize numLayers batchSize : ℕ}
    (m : DeepAR inputSize obSize hiddenSize numLayers batchSize)
    (_s : DeepARState obSize hiddenSize numLayers batchSize)
    (external_input_seq : List (BatchT batchSize inputSize))
    (observations_seq : List (BatchT batchSize obSize))
    (memory_state : Option (HiddenT numLayers batchSize hiddenSize ×
      HiddenT numLayers batchSize hiddenSize)) :
    (List (BatchT batchSize obSize) × List (BatchT batchSize obSize) ×
      (HiddenT numLayers batchSize hiddenSize × HiddenT numLayers batchSize hiddenSize)) ×
      DeepARState obSize hiddenSize numLayers batchSize :=
  let r := m.posteriorLoop external_input_seq (resolveMemory memory_state)
  ((r.1, r.2.1, r.2.2), ⟨some observations_seq, r.1, r.2.1, some r.2.2⟩)

/-- The `torch.distributions.MultivariateNormal` object built by
`DeepAR.decode_observation(mode='dist')`, recorded by its parameters: a
per-step, per-batch-row mean `loc` and covariance matrix. -/
structure MVNSeq (obSize batchSize : ℕ) where
  loc : List (BatchT batchSize obSize)
  cov : List (Fin batchSize → Matrix (Fin obSize) (Fin obSize) ℝ)

/-- Embeds `DeepAR.decode_observation(mode='dist')`:
`MultivariateNormal(self.state_mu, logsigma2cov(self.state_logsigma))`. -/
def DeepARState.decode_observation_dist {obSize hiddenSize numLayers batchSize : ℕ}
    (s : DeepARState obSize hiddenSize numLayers batchSize) : MVNSeq obSize batchSize :=
  ⟨s.state_mu, s.state_logsigma.map fun ls b => logsigma2cov (ls b)⟩

/-- Modelled from the spec: `normal_differential_sample` is imported from
`model/func.py`, which is not among the source files.  Following the spec's
"open-loop prediction with optional sampling", it draws a reparameterized
sample from the given multivariate normal: for the diagonal covariances
produced by `decode_observation`, the sample is `loc + sqrt(diag(cov)) * ε`,
with `ε` the driving standard-normal noise, supplied here explicitly. -/
def normal_differential_sample {obSize batchSize : ℕ} (dist : MVNSeq obSize batchSize)
    (noise : List (BatchT batchSize obSize)) : List (BatchT batchSize obSize) :=
  (dist.loc.zip (dist.cov.zip noise)).map
    fun p b i => p.1 b i + Real.sqrt (p.2.1 b i i) * p.2.2 b i

/-- Embeds `DeepAR.forward_prediction`: resolves `memory_state=None` to zero
tensors, runs the (duplicated) recurrence over the input sequence, stores
`state_mu`, `state_logsigma` and the new memory on the object (leaving any
stored `observations_seq` untouched), decodes the predictive distribution,
and returns it with the predicted sequence — the distribution's `loc` when
`max_prob` is true, a sample otherwise — and the new memory. -/
def DeepAR.forward_prediction {inputSize obSize hiddenSize numLayers batchSize : ℕ}
    (m : DeepAR inputSize obSize hiddenSize numLayers batchSize)
    (s : DeepARState obSize hiddenSize numLayers batchSize)
    (external_input_seq : List (BatchT batchSize inputSize))
    (max_prob : Bool)
    (noise : List (BatchT batchSize obSize))
    (memory_state : Option (HiddenT numLayers batchSize hiddenSize ×
      HiddenT numLayers batchSize hiddenSize)) :
    (MVNSeq obSize batchSize × List (BatchT batchSize obSize) ×
      (HiddenT numLayers batchSize hiddenSize × HiddenT numLayers batchSize hiddenSize)) ×
      DeepARState obSize hiddenSize numLayers batchSize :=
  let r := m.predictionLoop external_input_seq (resolveMemory memory_state)
  let s1 : DeepARState obSize hiddenSize numLayers batchSize :=
    ⟨s.observations_seq, r.1, r.2.1, some r.2.2⟩
  let observations_dist := s1.decode_observation_dist
  let observations_sample :=
    if max_prob then observations_dist.loc
    else normal_differential_sample observations_dist noise
  ((observations_dist, observations_sample, r.2.2), s1)

/-- The loss body of `DeepAR.call_loss`: per time step, the batch mean (over
dim 1) of the `MultivariateNormal(state_mu, logsigma2cov(state_logsigma))`
log-likelihood of the stored observations, summed over time (dim 0). -/
def likelihoodSum {obSize batchSize : ℕ} :
    List (BatchT batchSize obSize) → List (BatchT batchSize obSize) →
    List (BatchT batchSize obSize) → ℝ
  | o :: os, mu :: mus, ls :: lss =>
    (∑ b, mvn_log_prob (mu b) (logsigma2cov (ls b)) (o b)) / batchSize +
      likelihoodSum os mus lss
  | _, _, _ => 0

/-- Embeds `DeepAR.call_loss`: reads the stored `observations_seq` (reading
it on an object with no preceding `forward_posterior` raises
`AttributeError`, modelled as `none`), scores it under
`MultivariateNormal(state_mu, logsigma2cov(state_logsigma))`, averages the
log-likelihood over the batch dimension, sums over time, and returns the
negation together with the two zero placeholder components; mismatched
sequence lengths (a torch shape error) also give `none`. -/
def DeepARState.call_loss {obSize hiddenSize numLayers batchSize : ℕ}
    (s : DeepARState obSize hiddenSize numLayers batchSize) : Option (ℝ × ℝ × ℝ) :=
  match s.observations_seq with
  | none => none
  | some obs =>
    if obs.length = s.state_mu.length ∧ obs.length = s.state_logsigma.length then
      some (-likelihoodSum obs s.state_mu s.state_logsigma, 0, 0)
    else none

/-- The log-density formula the spec states, for one time step and one batch
row: the multivariate normal log-density with mean `μ` and diagonal
covariance `diag(softplus(ls)^2)`, written out coordinatewise. -/
def specGaussLogDensity {n : ℕ} (μ ls x : Fin n → ℝ) : ℝ :=
  -(1 / 2) * (∑ i, (x i - μ i) ^ 2 / softplus (ls i) ^ 2)
    - (1 / 2) * (∑ i, Real.log (softplus (ls i) ^ 2))
    - (n : ℝ) / 2 * Real.log (2 * Real.pi)

/-- The loss the spec describes: minus the sum over all time steps of the
per-batch mean of the diagonal-Gaussian log-density of the observations. -/
def specNLL {obSize batchSize : ℕ} (obs mus lss : List (BatchT batchSize obSize)) : ℝ :=
  -((obs.zip (mus.zip lss)).map fun p =>
      (∑ b, specGaussLogDensity (p.2.1 b) (p.2.2 b) (p.1 b)) / batchSize).sum

/-- A concrete instance of the model with all dimensions 1, used to evaluate
the embedded methods on explicit inputs. -/
def testModel : DeepAR 1 1 1 1 1 :=
  ⟨fun x h _c => (fun _ b _ => x b 0 + h 0 b 0, fun _ b _ => h 0 b 0 + 1),
   fun hp _ => hp (0, 0),
   fun _ _ => 0⟩

def xIn1 : BatchT 1 1 := fun _ _ => 1

def xIn2 : BatchT 1 1 := fun _ _ => 2

def noiseZero : List (BatchT 1 1) := [fun _ _ => 0, fun _ _ => 0]

def noiseOne : List (BatchT 1 1) := [fun _ _ => 1, fun _ _ => 0]

/-- `softplus` is strictly positive everywhere. -/
theorem softplus_pos (x : ℝ) : 0 < softplus x := by
  unfold softplus
  split
  · exact Real.log_pos (by linarith [Real.exp_pos x])
  · linarith

theorem softplus_ne_zero (x : ℝ) : softplus x ≠ 0 :=
  ne_of_gt (softplus_pos x)

/-- On inputs below 20, `softplus` agrees with the exact softplus. -/
theorem softplus_of_lt (x : ℝ) (h : x < 20) :
    softplus x = Real.log (1 + Real.exp x) := by
  unfold softplus
  rw [if_pos h]

theorem softplus_of_ge (x : ℝ) (h : 20 ≤ x) : softplus x = x := by
  unfold softplus
  rw [if_neg (not_lt.mpr h)]

theorem inverse_softplus_of_ge (x : ℝ) (h : 20 ≤ x) : inverse_softplus x = x := by
  unfold inverse_softplus
  rw [if_neg (not_lt.mpr h)]

/-- On the domain where the threshold trick does not interfere,
`inverse_softplus` is a left inverse of `softplus`. -/
theorem inverse_softplus_softplus (x : ℝ)
    (h : x < Real.log (Real.exp 20 - 1) ∨ 20 ≤ x) :
    inverse_softplus (softplus x) = x := by
  rcases h with h | h
  · have h20 : (0 : ℝ) < Real.exp 20 - 1 := by
      have := Real.add_one_le_exp (20 : ℝ); linarith
    have hx20 : x < 20 := by
      have hlt : Real.log (Real.exp 20 - 1) < Real.log (Real.exp 20) :=
        Real.log_lt_log h20 (by linarith)
      rw [Real.log_exp] at hlt; linarith
    have hex : Real.exp x < Real.exp 20 - 1 := by
      have hlt := Real.exp_lt_exp.mpr h
      rwa [Real.exp_log h20] at hlt
    have hsp : softplus x = Real.log (1 + Real.exp x) := softplus_of_lt x hx20
    have hsp20 : Real.log (1 + Real.exp x) < 20 := by
      have hlt : Real.log (1 + Real.exp x) < Real.log (Real.exp 20) :=
        Real.log_lt_log (by positivity) (by linarith)
      rwa [Real.log_exp] at hlt
    rw [hsp]
    unfold inverse_softplus
    rw [if_pos hsp20, Real.exp_log (by positivity)]
    have harith : (1 : ℝ) + Real.exp x - 1 = Real.exp x := by ring
    rw [harith, Real.log_exp]
  · rw [softplus_of_ge x h, inverse_softplus_of_ge x h]

theorem sqrt_sq_softplus (x : ℝ) : Real.sqrt (softplus x ^ 2) = softplus x :=
  Real.sqrt_sq (le_of_lt (softplus_pos x))

theorem cov2logsigma_logsigma2cov_apply {n : ℕ} (x : Fin n → ℝ) (i : Fin n) :
    cov2logsigma (logsigma2cov x) i = inverse_softplus (softplus (x i)) := by
  unfold cov2logsigma logsigma2cov
  rw [Matrix.diagonal_apply_eq, sqrt_sq_softplus]

/-- C7: `logsigma2cov` always produces a valid diagonal covariance matrix:
off-diagonal entries are zero, and each diagonal entry equals
`softplus(logsigma_i)^2`, which is non-negative. -/
theorem logsigma2cov_valid_diagonal_cov {n : ℕ} (x : Fin n → ℝ) :
    (∀ i j : Fin n, i ≠ j → logsigma2cov x i j = 0) ∧
    (∀ i : Fin n, logsigma2cov x i i = softplus (x i) ^ 2) ∧
    (∀ i : Fin n, 0 ≤ logsigma2cov x i i) := by
  refine ⟨fun i j hij => Matrix.diagonal_apply_ne _ hij,
          fun i => Matrix.diagonal_apply_eq _ i, fun i => ?_⟩
  unfold logsigma2cov
  rw [Matrix.diagonal_apply_eq]
  exact sq_nonneg _

/-- Witness for C7 at the concrete vector `![1, -3]` and indices 0 ≠ 1. -/
theorem logsigma2cov_valid_diagonal_cov_witness :
    ((0 : Fin 2) ≠ 1 ∧ logsigma2cov ![(1 : ℝ), -3] 0 1 = 0) ∧
    logsigma2cov ![(1 : ℝ), -3] 0 0 = softplus 1 ^ 2 ∧
    0 ≤ logsigma2cov ![(1 : ℝ), -3] 1 1 :=
  ⟨⟨by decide, (logsigma2cov_valid_diagonal_cov ![(1 : ℝ), -3]).1 0 1 (by decide)⟩,
   (logsigma2cov_valid_diagonal_cov ![(1 : ℝ), -3]).2.1 0,
   (logsigma2cov_valid_diagonal_cov ![(1 : ℝ), -3]).2.2 1⟩

/-- C8: the numerically-stabilized `softplus` and `inverse_softplus` are the
threshold-guarded piecewise functions: below the threshold 20 they apply the
exact formulas `log(1+exp x)` and `log(exp x - 1)`, and at or above the
threshold they are the identity, so their value never involves `exp` of an
argument at or above the threshold. -/
theorem softplus_piecewise_threshold (x : ℝ) :
    (x < 20 → softplus x = Real.log (1 + Real.exp x)) ∧
    (20 ≤ x → softplus x = x) ∧
    (x < 20 → inverse_softplus x = Real.log (Real.exp x - 1)) ∧
    (20 ≤ x → inverse_softplus x = x) := by
  refine ⟨softplus_of_lt x, softplus_of_ge x, fun h => ?_, inverse_softplus_of_ge x⟩
  unfold inverse_softplus
  rw [if_pos h]

/-- Witness for C8 at the concrete inputs 0 (below threshold) and 25 (above). -/
theorem softplus_piecewise_threshold_witness :
    softplus 0 = Real.log (1 + Real.exp 0) ∧
    inverse_softplus 0 = Real.log (Real.exp 0 - 1) ∧
    softplus 25 = 25 ∧ inverse_softplus 25 = 25 :=
  ⟨(softplus_piecewise_threshold 0).1 (by norm_num),
   (softplus_piecewise_threshold 0).2.2.1 (by norm_num),
   (softplus_piecewise_threshold 25).2.1 (by norm_num),
   (softplus_piecewise_threshold 25).2.2.2 (by norm_num)⟩

/-- Counterexample to C3 as stated: at the input `log(exp 20 - 1/2)` (which is
below the threshold 20, but whose softplus lands at or above it), the
round-trip `cov2logsigma (logsigma2cov x)` does not recover `x`. -/
theorem cov2logsigma_logsigma2cov_roundtrip_cex :
    cov2logsigma (logsigma2cov fun _ : Fin 1 => Real.log (Real.exp 20 - 1 / 2)) ≠
      (fun _ : Fin 1 => Real.log (Real.exp 20 - 1 / 2)) := by
  intro hEq
  have h0 : (0 : ℝ) < Real.exp 20 - 1 / 2 := by
    have := Real.add_one_le_exp (20 : ℝ); linarith
  have hx20 : Real.log (Real.exp 20 - 1 / 2) < 20 := by
    have hlt : Real.log (Real.exp 20 - 1 / 2) < Real.log (Real.exp 20) :=
      Real.log_lt_log h0 (by linarith)
    rwa [Real.log_exp] at hlt
  have hsp : softplus (Real.log (Real.exp 20 - 1 / 2)) =
      Real.log (Real.exp 20 + 1 / 2) := by
    rw [softplus_of_lt _ hx20, Real.exp_log h0]
    congr 1
    ring
  have hge : (20 : ℝ) ≤ Real.log (Real.exp 20 + 1 / 2) := by
    have hlt : Real.log (Real.exp 20) < Real.log (Real.exp 20 + 1 / 2) :=
      Real.log_lt_log (Real.exp_pos 20) (by linarith)
    rw [Real.log_exp] at hlt; linarith
  have happ := congrFun hEq 0
  simp only [cov2logsigma_logsigma2cov_apply] at happ
  rw [hsp, inverse_softplus_of_ge _ hge] at happ
  have hmono : Real.log (Real.exp 20 - 1 / 2) < Real.log (Real.exp 20 + 1 / 2) :=
    Real.log_lt_log h0 (by linarith)
  linarith

/-- C3 amended: the round-trip `cov2logsigma (logsigma2cov x) = x` holds for
every vector whose entries avoid the interval `[log(exp 20 - 1), 20)` created
by the threshold guard, i.e. whenever each entry is below `log(exp 20 - 1)` or
at least 20. -/
theorem cov2logsigma_logsigma2cov_roundtrip {n : ℕ} (x : Fin n → ℝ)
    (h : ∀ i, x i < Real.log (Real.exp 20 - 1) ∨ 20 ≤ x i) :
    cov2logsigma (logsigma2cov x) = x := by
  funext i
  rw [cov2logsigma_logsigma2cov_apply]
  exact inverse_softplus_softplus (x i) (h i)

/-- Witness for the amended C3 at the concrete vector `fun _ => 0`. -/
theorem cov2logsigma_logsigma2cov_roundtrip_witness :
    (∀ i : Fin 1, (fun _ : Fin 1 => (0 : ℝ)) i < Real.log (Real.exp 20 - 1) ∨
      20 ≤ (fun _ : Fin 1 => (0 : ℝ)) i) ∧
    cov2logsigma (logsigma2cov fun _ : Fin 1 => (0 : ℝ)) = fun _ : Fin 1 => (0 : ℝ) := by
  have h : ∀ i : Fin 1, (fun _ : Fin 1 => (0 : ℝ)) i < Real.log (Real.exp 20 - 1) ∨
      20 ≤ (fun _ : Fin 1 => (0 : ℝ)) i := by
    intro i
    left
    have h2 : (1 : ℝ) < Real.exp 20 - 1 := by
      have := Real.add_one_le_exp (20 : ℝ); linarith
    exact Real.log_pos h2
  exact ⟨h, cov2logsigma_logsigma2cov_roundtrip _ h⟩

/-- C10: `normalize_seq` never divides by zero: its divisor is
`sqrt(var x)` clamped below by `eps = 1e-12`, so the denominator is always at
least `1e-12`, the normalization is the total function
`(x i - mean x) / denom`, and even on a constant sequence (variance zero) the
denominator is exactly `1e-12`. -/
theorem normalize_seq_total {n : ℕ} (x : Fin n → ℝ) :
    1e-12 ≤ normalizeDenom x ∧
    (∀ i, normalize_seq x i = (x i - seqMean x) / normalizeDenom x) ∧
    (∀ c : ℝ, normalizeDenom (fun _ : Fin n => c) = 1e-12) := by
  refine ⟨le_max_right _ _, fun i => rfl, fun c => ?_⟩
  have hvar : seqVar (fun _ : Fin n => c) = 0 := by
    unfold seqVar
    have hsum : (∑ i : Fin n, ((fun _ : Fin n => c) i - seqMean fun _ : Fin n => c) ^ 2) = 0 := by
      rcases Nat.eq_zero_or_pos n with hn | hn
      · subst hn; simp
      · have hne : (n : ℝ) ≠ 0 := Nat.cast_ne_zero.mpr hn.ne'
        have hmean : seqMean (fun _ : Fin n => c) = c := by
          unfold seqMean
          rw [Finset.sum_const, Finset.card_univ, Fintype.card_fin, nsmul_eq_mul]
          exact mul_div_cancel_left₀ c hne
        rw [hmean]
        simp
    rw [hsum, zero_div]
  unfold normalizeDenom
  rw [hvar, Real.sqrt_zero]
  exact max_eq_right (by norm_num)

theorem logsigma2cov_inv {n : ℕ} (ls : Fin n → ℝ) :
    (logsigma2cov ls)⁻¹ = Matrix.diagonal fun i => (softplus (ls i) ^ 2)⁻¹ := by
  apply Matrix.inv_eq_right_inv
  unfold logsigma2cov
  rw [Matrix.diagonal_mul_diagonal]
  have h : (fun i => softplus (ls i) ^ 2 * (softplus (ls i) ^ 2)⁻¹) =
      fun _ : Fin n => (1 : ℝ) := by
    funext i
    exact mul_inv_cancel₀ (pow_ne_zero 2 (softplus_ne_zero _))
  rw [h, Matrix.diagonal_one]

/-- The general multivariate-normal log-density at the diagonal covariance
`logsigma2cov ls` reduces to the coordinatewise diagonal formula. -/
theorem mvn_log_prob_diagonal {n : ℕ} (μ ls x : Fin n → ℝ) :
    mvn_log_prob μ (logsigma2cov ls) x = specGaussLogDensity μ ls x := by
  unfold mvn_log_prob specGaussLogDensity
  have hquad : Matrix.dotProduct (fun i => x i - μ i)
      ((logsigma2cov ls)⁻¹.mulVec fun i => x i - μ i) =
      ∑ i, (x i - μ i) ^ 2 / softplus (ls i) ^ 2 := by
    rw [logsigma2cov_inv]
    unfold Matrix.dotProduct
    refine Finset.sum_congr rfl fun i _ => ?_
    rw [Matrix.mulVec_diagonal, div_eq_mul_inv]
    ring
  have hdet : Real.log (logsigma2cov ls).det = ∑ i, Real.log (softplus (ls i) ^ 2) := by
    unfold logsigma2cov
    rw [Matrix.det_diagonal]
    exact Real.log_prod _ _ fun i _ => pow_ne_zero 2 (softplus_ne_zero _)
  rw [hquad, hdet]

theorem likelihoodSum_eq_specNLL {obSize batchSize : ℕ}
    (obs : List (BatchT batchSize obSize)) :
    ∀ mus lss : List (BatchT batchSize obSize),
      obs.length = mus.length → obs.length = lss.length →
      -likelihoodSum obs mus lss = specNLL obs mus lss := by
  induction obs with
  | nil =>
    intro mus lss _ _
    simp [likelihoodSum, specNLL]
  | cons o os ih =>
    intro mus lss h1 h2
    cases mus with
    | nil => simp at h1
    | cons mu mus2 =>
      cases lss with
      | nil => simp at h2
      | cons ls lss2 =>
        have hsum : (∑ b, mvn_log_prob (mu b) (logsigma2cov (ls b)) (o b)) =
            ∑ b, specGaussLogDensity (mu b) (ls b) (o b) :=
          Finset.sum_congr rfl fun b _ => mvn_log_prob_diagonal _ _ _
        have hrest := ih mus2 lss2 (by simpa using h1) (by simpa using h2)
        simp only [likelihoodSum, specNLL, List.zip_cons_cons, List.map_cons,
          List.sum_cons] at hrest ⊢
        rw [hsum]
        linarith [hrest]

theorem posteriorLoop_length_mu {inputSize obSize hiddenSize numLayers batchSize : ℕ}
    (m : DeepAR inputSize obSize hiddenSize numLayers batchSize)
    (xs : List (BatchT batchSize inputSize))
    (hc : HiddenT numLayers batchSize hiddenSize × HiddenT numLayers batchSize hiddenSize) :
    (m.posteriorLoop xs hc).1.length = xs.length := by
  induction xs generalizing hc with
  | nil => rfl
  | cons x xs ih => simp [DeepAR.posteriorLoop, ih]

theorem posteriorLoop_length_sigma {inputSize obSize hiddenSize numLayers batchSize : ℕ}
    (m : DeepAR inputSize obSize hiddenSize numLayers batchSize)
    (xs : List (BatchT batchSize inputSize))
    (hc : HiddenT numLayers batchSize hiddenSize × HiddenT numLayers batchSize hiddenSize) :
    (m.posteriorLoop xs hc).2.1.length = xs.length := by
  induction xs generalizing hc with
  | nil => rfl
  | cons x xs ih => simp [DeepAR.posteriorLoop, ih]

/-- The two duplicated per-step loops compute the same function. -/
theorem predictionLoop_eq_posteriorLoop
    {inputSize obSize hiddenSize numLayers batchSize : ℕ}
    (m : DeepAR inputSize obSize hiddenSize numLayers batchSize)
    (xs : List (BatchT batchSize inputSize))
    (hc : HiddenT numLayers batchSize hiddenSize × HiddenT numLayers batchSize hiddenSize) :
    m.predictionLoop xs hc = m.posteriorLoop xs hc := by
  induction xs generalizing hc with
  | nil => rfl
  | cons x xs ih => simp [DeepAR.posteriorLoop, DeepAR.predictionLoop, ih]

theorem posteriorLoop_append {inputSize obSize hiddenSize numLayers batchSize : ℕ}
    (m : DeepAR inputSize obSize hiddenSize numLayers batchSize)
    (xs ys : List (BatchT batchSize inputSize))
    (hc : HiddenT numLayers batchSize hiddenSize × HiddenT numLayers batchSize hiddenSize) :
    m.posteriorLoop (xs ++ ys) hc =
      ((m.posteriorLoop xs hc).1 ++ (m.posteriorLoop ys (m.posteriorLoop xs hc).2.2).1,
       (m.posteriorLoop xs hc).2.1 ++ (m.posteriorLoop ys (m.posteriorLoop xs hc).2.2).2.1,
       (m.posteriorLoop ys (m.posteriorLoop xs hc).2.2).2.2) := by
  induction xs generalizing hc with
  | nil => simp [DeepAR.posteriorLoop]
  | cons x xs ih => simp [DeepAR.posteriorLoop, ih]

/-- C1: for every observation sequence stored by a preceding
`forward_posterior` call (its length matching the input sequence's, as the
shapes `(len, batch_size, ·)` prescribe), `call_loss` returns as its first
component minus the sum over time of the per-batch mean of the multivariate
normal log-density of the observations under mean `state_mu[t]` and diagonal
covariance `diag(softplus(state_logsigma[t])^2)`, and its second and third
components are 0. -/
theorem call_loss_is_spec_nll {inputSize obSize hiddenSize numLayers batchSize : ℕ}
    (m : DeepAR inputSize obSize hiddenSize numLayers batchSize)
    (s : DeepARState obSize hiddenSize numLayers batchSize)
    (inputs : List (BatchT batchSize inputSize))
    (obs : List (BatchT batchSize obSize))
    (mem : Option (HiddenT numLayers batchSize hiddenSize ×
      HiddenT numLayers batchSize hiddenSize))
    (h : obs.length = inputs.length) :
    ((m.forward_posterior s inputs obs mem).2).call_loss =
      some (specNLL obs (m.forward_posterior s inputs obs mem).2.state_mu
        (m.forward_posterior s inputs obs mem).2.state_logsigma, 0, 0) := by
  have h1 : obs.length = (m.posteriorLoop inputs (resolveMemory mem)).1.length := by
    rw [posteriorLoop_length_mu]; exact h
  have h2 : obs.length = (m.posteriorLoop inputs (resolveMemory mem)).2.1.length := by
    rw [posteriorLoop_length_sigma]; exact h
  unfold DeepAR.forward_posterior DeepARState.call_loss
  simp only [if_pos (And.intro h1 h2)]
  rw [likelihoodSum_eq_specNLL _ _ _ h1 h2]

/-- C4: the recurrent memory is composable: running `forward_posterior` on a
split sequence, threading the returned `memory_state` into the second call,
yields the same concatenated `state_mu` and `state_logsigma` and the same
final memory as one call on the full sequence; and `memory_state=None` is
the same as passing zero hidden and cell tensors. -/
theorem forward_posterior_composable
    {inputSize obSize hiddenSize numLayers batchSize : ℕ}
    (m : DeepAR inputSize obSize hiddenSize numLayers batchSize)
    (s s2 : DeepARState obSize hiddenSize numLayers batchSize)
    (xs1 xs2 : List (BatchT batchSize inputSize))
    (obs1 obs2 : List (BatchT batchSize obSize))
    (mem : Option (HiddenT numLayers batchSize hiddenSize ×
      HiddenT numLayers batchSize hiddenSize)) :
    ((m.forward_posterior s (xs1 ++ xs2) (obs1 ++ obs2) mem).1.1 =
      (m.forward_posterior s xs1 obs1 mem).1.1 ++
        (m.forward_posterior s2 xs2 obs2
          (some (m.forward_posterior s xs1 obs1 mem).1.2.2)).1.1) ∧
    ((m.forward_posterior s (xs1 ++ xs2) (obs1 ++ obs2) mem).1.2.1 =
      (m.forward_posterior s xs1 obs1 mem).1.2.1 ++
        (m.forward_posterior s2 xs2 obs2
          (some (m.forward_posterior s xs1 obs1 mem).1.2.2)).1.2.1) ∧
    ((m.forward_posterior s (xs1 ++ xs2) (obs1 ++ obs2) mem).1.2.2 =
      (m.forward_posterior s2 xs2 obs2
        (some (m.forward_posterior s xs1 obs1 mem).1.2.2)).1.2.2) ∧
    (∀ xs obs0, m.forward_posterior s xs obs0 none =
      m.forward_posterior s xs obs0 (some (fun _ _ _ => 0, fun _ _ _ => 0))) := by
  refine ⟨?_, ?_, ?_, fun xs obs0 => rfl⟩ <;>
    simp [DeepAR.forward_posterior, posteriorLoop_append, resolveMemory]

/-- C6: with the LSTM a deterministic step function (dropout inactive),
`forward_posterior` and `forward_prediction` run the same per-step
recurrence: they store identical `state_mu` and `state_logsigma` and return
identical memory, for every observation sequence, `max_prob` flag and noise
— in particular the observations passed to `forward_posterior` never
influence the recurrence or the decoded distribution parameters. -/
theorem posterior_prediction_same_recurrence
    {inputSize obSize hiddenSize numLayers batchSize : ℕ}
    (m : DeepAR inputSize obSize hiddenSize numLayers batchSize)
    (s s2 : DeepARState obSize hiddenSize numLayers batchSize)
    (xs : List (BatchT batchSize inputSize))
    (obs : List (BatchT batchSize obSize))
    (mem : Option (HiddenT numLayers batchSize hiddenSize ×
      HiddenT numLayers batchSize hiddenSize))
    (max_prob : Bool) (noise : List (BatchT batchSize obSize)) :
    (m.forward_posterior s xs obs mem).2.state_mu =
      (m.forward_prediction s2 xs max_prob noise mem).2.state_mu ∧
    (m.forward_posterior s xs obs mem).2.state_logsigma =
      (m.forward_prediction s2 xs max_prob noise mem).2.state_logsigma ∧
    (m.forward_posterior s xs obs mem).1.2.2 =
      (m.forward_prediction s2 xs max_prob noise mem).1.2.2 := by
  refine ⟨?_, ?_, ?_⟩ <;>
    simp [DeepAR.forward_posterior, DeepAR.forward_prediction,
      predictionLoop_eq_posteriorLoop]

/-- C5: `forward_prediction` with `max_prob=True` returns exactly the `loc`
of the decoded multivariate normal, which maximizes its log-density, and the
result does not depend on the sampling noise; with `max_prob=False` the
returned sequence is the (reparameterized) sample of that same
distribution. -/
theorem forward_prediction_max_prob_is_loc
    {inputSize obSize hiddenSize numLayers batchSize : ℕ}
    (m : DeepAR inputSize obSize hiddenSize numLayers batchSize)
    (s : DeepARState obSize hiddenSize numLayers batchSize)
    (xs : List (BatchT batchSize inputSize))
    (mem : Option (HiddenT numLayers batchSize hiddenSize ×
      HiddenT numLayers batchSize hiddenSize))
    (noise noise2 : List (BatchT batchSize obSize)) :
    (m.forward_prediction s xs true noise mem).1.2.1 =
      (m.forward_prediction s xs true noise mem).1.1.loc ∧
    (m.forward_prediction s xs true noise mem).1.2.1 =
      (m.forward_prediction s xs true noise2 mem).1.2.1 ∧
    (∀ μ ls x : Fin obSize → ℝ,
      mvn_log_prob μ (logsigma2cov ls) x ≤ mvn_log_prob μ (logsigma2cov ls) μ) ∧
    (m.forward_prediction s xs false noise mem).1.2.1 =
      normal_differential_sample (m.forward_prediction s xs false noise mem).1.1 noise := by
  refine ⟨rfl, rfl, fun μ ls x => ?_, rfl⟩
  rw [mvn_log_prob_diagonal, mvn_log_prob_diagonal]
  unfold specGaussLogDensity
  have hx : 0 ≤ ∑ i, (x i - μ i) ^ 2 / softplus (ls i) ^ 2 :=
    Finset.sum_nonneg fun i _ => div_nonneg (sq_nonneg _) (sq_nonneg _)
  have hz : (∑ i, (μ i - μ i) ^ 2 / softplus (ls i) ^ 2) = 0 := by simp
  rw [hz]
  linarith

/-- C2 amended: `forward_prediction` is open-loop in the strong sense: its
recurrence consumes only `external_input_seq` and the initial memory — the
decoded distribution, the final memory and the stored state are identical
for every `max_prob` flag and every sampling noise, so no step feeds the
previously predicted observation back in. -/
theorem forward_prediction_recurrence_independent
    {inputSize obSize hiddenSize numLayers batchSize : ℕ}
    (m : DeepAR inputSize obSize hiddenSize numLayers batchSize)
    (s : DeepARState obSize hiddenSize numLayers batchSize)
    (xs : List (BatchT batchSize inputSize))
    (mem : Option (HiddenT numLayers batchSize hiddenSize ×
      HiddenT numLayers batchSize hiddenSize))
    (mp1 mp2 : Bool) (noise1 noise2 : List (BatchT batchSize obSize)) :
    (m.forward_prediction s xs mp1 noise1 mem).1.1 =
      (m.forward_prediction s xs mp2 noise2 mem).1.1 ∧
    (m.forward_prediction s xs mp1 noise1 mem).1.2.2 =
      (m.forward_prediction s xs mp2 noise2 mem).1.2.2 ∧
    (m.forward_prediction s xs mp1 noise1 mem).2 =
      (m.forward_prediction s xs mp2 noise2 mem).2 :=
  ⟨rfl, rfl, rfl⟩

/-- Counterexample to C2 as stated: on a concrete model and the length-2
input `[xIn1, xIn2]`, two runs of `forward_prediction` whose sampled
observation at step 0 differs produce identical recurrence results —
identical stored `state_mu` and `state_logsigma` and identical final memory —
so the recurrent step at time 1 does not depend on the observation value
predicted at step 0. -/
theorem forward_prediction_not_autoregressive_cex :
    ((testModel.forward_prediction (DeepARState.mk0 1 1 1 1) [xIn1, xIn2] false
        noiseOne none).1.2.1.headI 0 0 ≠
      (testModel.forward_prediction (DeepARState.mk0 1 1 1 1) [xIn1, xIn2] false
        noiseZero none).1.2.1.headI 0 0) ∧
    (testModel.forward_prediction (DeepARState.mk0 1 1 1 1) [xIn1, xIn2] false
        noiseOne none).2.state_mu =
      (testModel.forward_prediction (DeepARState.mk0 1 1 1 1) [xIn1, xIn2] false
        noiseZero none).2.state_mu ∧
    (testModel.forward_prediction (DeepARState.mk0 1 1 1 1) [xIn1, xIn2] false
        noiseOne none).2.state_logsigma =
      (testModel.forward_prediction (DeepARState.mk0 1 1 1 1) [xIn1, xIn2] false
        noiseZero none).2.state_logsigma ∧
    (testModel.forward_prediction (DeepARState.mk0 1 1 1 1) [xIn1, xIn2] false
        noiseOne none).1.2.2 =
      (testModel.forward_prediction (DeepARState.mk0 1 1 1 1) [xIn1, xIn2] false
        noiseZero none).1.2.2 := by
  refine ⟨?_, rfl, rfl, rfl⟩
  simp only [DeepAR.forward_prediction, DeepAR.predictionLoop, resolveMemory,
    DeepARState.decode_observation_dist, normal_differential_sample, testModel,
    DeepARState.mk0, noiseOne, noiseZero, List.zip_cons_cons, List.map_cons,
    List.headI, Bool.false_eq_true, if_false]
  intro hEq
  simp only [hiddenPermute, logsigma2cov, Matrix.diagonal_apply_eq,
    sqrt_sq_softplus] at hEq
  have hpos := softplus_pos (0 : ℝ)
  nlinarith [hEq]

/-- C9: `call_loss` reads `self.observations_seq`, which only
`forward_posterior` sets: on a fresh object it is undefined (an
`AttributeError`, modelled as `none`); `forward_prediction` leaves the
stored observations untouched; and invoking `call_loss` after a
`forward_prediction` that followed a `forward_posterior` scores the new
prediction's `state_mu`/`state_logsigma` against the observations stored by
that earlier posterior call. -/
theorem call_loss_requires_posterior
    {inputSize obSize hiddenSize numLayers batchSize : ℕ}
    (m : DeepAR inputSize obSize hiddenSize numLayers batchSize)
    (s : DeepARState obSize hiddenSize numLayers batchSize)
    (xs xs2 : List (BatchT batchSize inputSize))
    (obs : List (BatchT batchSize obSize))
    (mem mem2 : Option (HiddenT numLayers batchSize hiddenSize ×
      HiddenT numLayers batchSize hiddenSize))
    (mp : Bool) (noise : List (BatchT batchSize obSize))
    (h : obs.length = xs2.length) :
    (DeepARState.mk0 obSize hiddenSize numLayers batchSize).call_loss = none ∧
    ((m.forward_prediction s xs mp noise mem).2.observations_seq =
      s.observations_seq) ∧
    ((m.forward_prediction (m.forward_posterior s xs obs mem).2 xs2 mp noise
        mem2).2.call_loss =
      some (-likelihoodSum obs
        (m.forward_prediction (m.forward_posterior s xs obs mem).2 xs2 mp noise
          mem2).2.state_mu
        (m.forward_prediction (m.forward_posterior s xs obs mem).2 xs2 mp noise
          mem2).2.state_logsigma, 0, 0)) := by
  refine ⟨rfl, rfl, ?_⟩
  have h1 : obs.length = (m.predictionLoop xs2 (resolveMemory mem2)).1.length := by
    rw [predictionLoop_eq_posteriorLoop, posteriorLoop_length_mu]; exact h
  have h2 : obs.length = (m.predictionLoop xs2 (resolveMemory mem2)).2.1.length := by
    rw [predictionLoop_eq_posteriorLoop, posteriorLoop_length_sigma]; exact h
  unfold DeepAR.forward_posterior DeepAR.forward_prediction DeepARState.call_loss
  simp only [if_pos (And.intro h1 h2)]

/-- Witness for C1: the concrete model, one input step and one observation. -/
theorem call_loss_is_spec_nll_witness :
    ([xIn2] : List (BatchT 1 1)).length = ([xIn1] : List (BatchT 1 1)).length ∧
    ((testModel.forward_posterior (DeepARState.mk0 1 1 1 1) [xIn1] [xIn2]
        none).2).call_loss =
      some (specNLL [xIn2]
        (testModel.forward_posterior (DeepARState.mk0 1 1 1 1) [xIn1] [xIn2]
          none).2.state_mu
        (testModel.forward_posterior (DeepARState.mk0 1 1 1 1) [xIn1] [xIn2]
          none).2.state_logsigma, 0, 0) :=
  ⟨rfl, call_loss_is_spec_nll testModel (DeepARState.mk0 1 1 1 1) [xIn1] [xIn2]
    none rfl⟩

/-- Witness for C9: the concrete model, posterior on one step, prediction on
one step. -/
theorem call_loss_requires_posterior_witness :
    ([xIn2] : List (BatchT 1 1)).length = ([xIn1] : List (BatchT 1 1)).length ∧
    (DeepARState.mk0 1 1 1 1).call_loss = none ∧
    ((testModel.forward_prediction (DeepARState.mk0 1 1 1 1) [xIn1] false
        noiseZero none).2.observations_seq =
      (DeepARState.mk0 1 1 1 1).observations_seq) ∧
    ((testModel.forward_prediction
        (testModel.forward_posterior (DeepARState.mk0 1 1 1 1) [xIn1] [xIn2] none).2
        [xIn1] false noiseZero none).2.call_loss =
      some (-likelihoodSum [xIn2]
        (testModel.forward_prediction
          (testModel.forward_posterior (DeepARState.mk0 1 1 1 1) [xIn1] [xIn2] none).2
          [xIn1] false noiseZero none).2.state_mu
        (testModel.forward_prediction
          (testModel.forward_posterior (DeepARState.mk0 1 1 1 1) [xIn1] [xIn2] none).2
          [xIn1] false noiseZero none).2.state_logsigma, 0, 0)) := by
  have h := call_loss_requires_posterior testModel (DeepARState.mk0 1 1 1 1)
    [xIn1] [xIn1] [xIn2] none none false noiseZero rfl
  exact ⟨rfl, h.1, h.2.1, h.2.2⟩
